import Mathlib

/-!
Shallow embedding of the task-management API core
(app/models.py, app/schemas.py, app/routers/tasks.py).

Conventions of the embedding:
* Timestamps are a logical clock: `DB.now` models the current instant
  (`func.now()` and `datetime.datetime.now(datetime.timezone.utc)`).
* Calendar dates are embedded by their ISO `YYYY-MM-DD` string; the
  upstream validator guarantees payload dates are valid ISO strings, on
  which `date.fromisoformat` is injective, so string equality coincides
  with date equality.
* A `Tag` row is `(id, name)`; the `task_tags` association table is
  embedded as the `tags : List Nat` field of a task (list of tag ids).
* The SQLAlchemy unit of work emits an UPDATE on the `tasks` row only
  when some assigned column differs from its committed value
  (`History.from_scalar_attribute` compares with `is_equal`); the
  `onupdate=func.now()` of `Task.updated_at` (models.py) fires exactly
  when such an UPDATE is emitted.  Changes to the `task_tags`
  association alone emit no UPDATE on `tasks`.  `scalarChanges` models
  this dirty check.
-/

namespace TaskAPI

/-- Model of `Tag` (models.py): id autoincrement, name unique. -/
structure Tag where
  id : Nat
  name : String
deriving DecidableEq

/-- Model of `Task` (models.py). -/
structure Task where
  id : Nat
  title : String
  description : Option String
  priority : Nat
  due_date : String
  completed : Bool
  is_deleted : Bool
  deleted_at : Option Nat
  created_at : Nat
  updated_at : Nat
  tags : List Nat
deriving DecidableEq

/-- The persistent store: the two tables, their id sequences, and the
current instant. -/
structure DB where
  tasks : List Task
  tags : List Tag
  nextTaskId : Nat
  nextTagId : Nat
  now : Nat
deriving DecidableEq

/-- Python `str.strip()`: remove leading and trailing whitespace.
(Defined on the character list so that it reduces definitionally.) -/
def pyStrip (s : String) : String :=
  String.mk (((s.toList.dropWhile Char.isWhitespace).reverse.dropWhile Char.isWhitespace).reverse)

/-- Python `str.lower()` on the ASCII range (tag names are ASCII). -/
def lowerChar (c : Char) : Char :=
  if 65 ≤ c.toNat && c.toNat ≤ 90 then Char.ofNat (c.toNat + 32) else c

def pyLower (s : String) : String :=
  String.mk (s.toList.map lowerChar)

def pySplitCommaAux : List Char → List Char → List String
  | [], acc => [String.mk acc.reverse]
  | c :: cs, acc =>
    if c == ',' then String.mk acc.reverse :: pySplitCommaAux cs []
    else pySplitCommaAux cs (c :: acc)

/-- Python `s.split(",")`: like Python, `"".split(",") == [""]` and a
trailing comma yields a trailing empty piece. -/
def pySplitComma (s : String) : List String :=
  pySplitCommaAux s.toList []

/-- The comprehension `[tag.strip().lower() for tag in v if tag.strip()]` (schemas.py);
a stripped-empty string is falsy in Python. -/
def cleanTags (v : List String) : List String :=
  (v.filter (fun t => !(pyStrip t == ""))).map (fun t => pyLower (pyStrip t))

/-- Model of `TaskCreate.validate_tags` / `TaskUpdate.validate_tags` (schemas.py):
cleans the provided list and collapses an empty cleaned list to null. -/
def validate_tags (v : Option (List String)) : Option (List String) :=
  match v with
  | none => none
  | some l =>
    let cleaned := cleanTags l
    if cleaned.isEmpty then none else some cleaned

/-- Model of `_get_or_create_tags` (routers/tasks.py): for each name in order,
look up an existing Tag by exact name; if absent, create and persist a
new row.  Returns the updated store and the attached tag ids. -/
def get_or_create_tags : DB → List String → DB × List Nat
  | db, [] => (db, [])
  | db, n :: ns =>
    match db.tags.find? (fun tg => tg.name == n) with
    | some tg =>
      let r := get_or_create_tags db ns
      (r.1, tg.id :: r.2)
    | none =>
      let tg : Tag := { id := db.nextTagId, name := n }
      let db1 : DB := { db with tags := db.tags ++ [tg], nextTagId := db.nextTagId + 1 }
      let r := get_or_create_tags db1 ns
      (r.1, tg.id :: r.2)

/-- A validated `TaskCreate` payload (schemas.py): `tags` is the value
produced by `validate_tags`, i.e. `none` or a nonempty cleaned list. -/
structure TaskCreate where
  title : String
  description : Option String
  priority : Nat
  due_date : String
  tags : Option (List String)
deriving DecidableEq

/-- Model of `create_task` (routers/tasks.py).  `if payload.tags:` is Python
truthiness: both `None` and `[]` skip tag resolution. -/
def create_task (db : DB) (p : TaskCreate) : DB × Task :=
  let r :=
    match p.tags with
    | some names => if names.isEmpty then (db, ([] : List Nat)) else get_or_create_tags db names
    | none => (db, ([] : List Nat))
  let db1 := r.1
  let task : Task :=
    { id := db1.nextTaskId
      title := p.title
      description := p.description
      priority := p.priority
      due_date := p.due_date
      completed := false
      is_deleted := false
      deleted_at := none
      created_at := db1.now
      updated_at := db1.now
      tags := r.2 }
  ({ db1 with tasks := db1.tasks ++ [task], nextTaskId := db1.nextTaskId + 1 }, task)

/-- The always-applied filters of `list_tasks` (routers/tasks.py):
soft-deleted rows are excluded first, then the optional completed and
priority filters are ANDed on. -/
def baseFilter (completed? : Option Bool) (priority? : Option Nat) (t : Task) : Bool :=
  (t.is_deleted == false)
  && (match completed? with | some c => t.completed == c | none => true)
  && (match priority? with | some p => t.priority == p | none => true)

/-- The assignment `tag_names = [t.strip().lower() for t in tags.split(",") if t.strip()]`,
guarded by `if tags:` (a missing or empty string is falsy). -/
def parseTagsParam (tags : Option String) : List String :=
  match tags with
  | none => []
  | some s => if s == "" then [] else cleanTags (pySplitComma s)

/-- The tag names attached to a task, resolved through the tag store
(the join of `task_tags` with `tags`). -/
def taskTagNames (db : DB) (t : Task) : List String :=
  t.tags.filterMap (fun tid => (db.tags.find? (fun tg => tg.id == tid)).map (fun tg => tg.name))

/-- Rows of `query.join(Task.tags).where(Tag.name.in_(tagNames))`:
one row per (task, matching tag) pair. -/
def joinRows (db : DB) (tagNames : List String) : List Task → List Task
  | [] => []
  | t :: ts =>
    ((taskTagNames db t).filter (fun n => tagNames.contains n)).map (fun _ => t)
      ++ joinRows db tagNames ts

/-- The predicate the tag filter realises at the task level: the task
carries at least one of the requested tag names. -/
def tagMatch (db : DB) (ns : List String) (t : Task) : Bool :=
  (taskTagNames db t).any (fun n => ns.contains n)

/-- SQL `DISTINCT` at the task level: keep the first row of each task
id, tracking the ids already emitted. -/
def dedupByIdAux : List Nat → List Task → List Task
  | _, [] => []
  | seen, t :: ts =>
    if seen.contains t.id then dedupByIdAux seen ts
    else t :: dedupByIdAux (t.id :: seen) ts

def dedupById (ts : List Task) : List Task :=
  dedupByIdAux [] ts

/-- Descending insertion by `created_at` (`ORDER BY created_at DESC`). -/
def insertByCreatedDesc (t : Task) : List Task → List Task
  | [] => [t]
  | u :: us => if t.created_at ≤ u.created_at then u :: insertByCreatedDesc t us else t :: u :: us

def sortByCreatedDesc (ts : List Task) : List Task :=
  ts.foldr insertByCreatedDesc []

/-- The filtered, tag-matched, de-duplicated task set of `list_tasks`,
before counting and pagination (the query whose subquery is counted). -/
def matchedTasks (db : DB) (completed? : Option Bool) (priority? : Option Nat)
    (tagsParam : Option String) : List Task :=
  let base := db.tasks.filter (baseFilter completed? priority?)
  let tagNames := parseTagsParam tagsParam
  if tagNames.isEmpty then base else dedupById (joinRows db tagNames base)

/-- The body of `PaginatedTaskResponse` (schemas.py). -/
structure ListResult where
  total : Nat
  limit : Nat
  offset : Nat
  tasks : List Task
deriving DecidableEq

/-- Model of `list_tasks` (routers/tasks.py): the total is counted before
pagination; the page is ordered by `created_at` descending, then
offset and limit are applied. -/
def list_tasks (db : DB) (completed? : Option Bool) (priority? : Option Nat)
    (tagsParam : Option String) (limit offset : Nat) : ListResult :=
  let matched := matchedTasks db completed? priority? tagsParam
  { total := matched.length
    limit := limit
    offset := offset
    tasks := ((sortByCreatedDesc matched).drop offset).take limit }

/-- Model of `get_task` (routers/tasks.py): `none` models the 404 NotFound. -/
def get_task (db : DB) (task_id : Nat) : Option Task :=
  db.tasks.find? (fun t => t.id == task_id && t.is_deleted == false)

/-- A validated `TaskUpdate` payload after `model_dump(exclude_unset=True)`
(schemas.py): `none` in the outer `Option` means the key was absent from
the request body.  For `tags`, `some none` is a present-but-null value,
which `validate_tags` also produces from an empty or all-blank list. -/
structure TaskUpdate where
  title : Option String
  description : Option (Option String)
  priority : Option Nat
  due_date : Option String
  completed : Option Bool
  tags : Option (Option (List String))
deriving DecidableEq

/-- The payload whose every field is absent (an empty request body). -/
def TaskUpdate.empty : TaskUpdate :=
  { title := none, description := none, priority := none, due_date := none
    completed := none, tags := none }

/-- The SQLAlchemy flush-time dirty check on the `tasks` row: an UPDATE
statement, and hence the `onupdate=func.now()` refresh of `updated_at`
(models.py), is emitted iff some assigned column differs from its
committed value. -/
def scalarChanges (task : Task) (p : TaskUpdate) : Bool :=
  (match p.title with | some v => !(v == task.title) | none => false)
  || (match p.description with | some v => !(v == task.description) | none => false)
  || (match p.priority with | some v => !(v == task.priority) | none => false)
  || (match p.due_date with | some v => !(v == task.due_date) | none => false)
  || (match p.completed with | some v => !(v == task.completed) | none => false)

/-- The `if "tags" in update_data:` block of `update_task`
(routers/tasks.py): an absent key keeps the tag set, a present list
replaces it through `_get_or_create_tags`, a present null assigns `[]`. -/
def applyTagsKey (db : DB) (task : Task) (tagsField : Option (Option (List String))) :
    DB × List Nat :=
  match tagsField with
  | none => (db, task.tags)
  | some none => (db, ([] : List Nat))
  | some (some names) => get_or_create_tags db names

/-- The `setattr` loop of `update_task` plus the flush: provided scalar
fields are assigned, the tag set is replaced by `newTags`, and
`updated_at` is refreshed exactly when the flush emits an UPDATE on the
row (see `scalarChanges`). -/
def applyScalars (task : Task) (p : TaskUpdate) (newTags : List Nat) (now : Nat) : Task :=
  { task with
    title := p.title.getD task.title
    description := match p.description with | some v => v | none => task.description
    priority := p.priority.getD task.priority
    due_date := p.due_date.getD task.due_date
    completed := p.completed.getD task.completed
    tags := newTags
    updated_at := if scalarChanges task p then now else task.updated_at }

/-- Model of `update_task` (routers/tasks.py): fetch the non-deleted task, handle
the `tags` key, assign the remaining provided fields, flush. -/
def update_task (db : DB) (task_id : Nat) (p : TaskUpdate) : Option (DB × Task) :=
  match db.tasks.find? (fun t => t.id == task_id && t.is_deleted == false) with
  | none => none
  | some task =>
    let r := applyTagsKey db task p.tags
    let task1 := applyScalars task p r.2 db.now
    some ({ r.1 with tasks := r.1.tasks.map (fun t => if t.id == task.id then task1 else t) },
      task1)

/-- Model of `delete_task` (routers/tasks.py): soft delete.  Flipping `is_deleted`
is a genuine column change, so the flush also refreshes `updated_at`. -/
def delete_task (db : DB) (task_id : Nat) : Option DB :=
  match db.tasks.find? (fun t => t.id == task_id && t.is_deleted == false) with
  | none => none
  | some task =>
    some { db with tasks := db.tasks.map (fun t =>
      if t.id == task.id then
        { t with is_deleted := true, deleted_at := some db.now, updated_at := db.now }
      else t) }

/-! ### Concrete fixtures used by the witness and counterexample theorems -/

def mkTask (i : Nat) (tagIds : List Nat) : Task :=
  { id := i, title := "t", description := none, priority := 2, due_date := "2026-03-15"
    completed := false, is_deleted := false, deleted_at := none
    created_at := i, updated_at := i, tags := tagIds }

/-- Three tasks: 1 tagged work+urgent, 2 tagged urgent, 3 soft-deleted. -/
def wdb : DB :=
  { tasks := [mkTask 1 [1, 2], mkTask 2 [2],
      { mkTask 3 [1] with is_deleted := true, deleted_at := some 3 }]
    tags := [⟨1, "work"⟩, ⟨2, "urgent"⟩]
    nextTaskId := 4, nextTagId := 3, now := 9 }

/-- A live task: id 1, tagged work (tag id 1), updated_at 5. -/
def wTask1 : Task := { mkTask 1 [1] with title := "a", updated_at := 5 }

/-- A store holding only `wTask1`, at clock 10. -/
def wdb1 : DB :=
  { tasks := [wTask1], tags := [⟨1, "work"⟩]
    nextTaskId := 2, nextTagId := 2, now := 10 }

def wPayloadNullTags : TaskUpdate := { TaskUpdate.empty with tags := some none }

def wPayloadTagsOnly : TaskUpdate := { TaskUpdate.empty with tags := some (some ["x"]) }

def wCreate : TaskCreate :=
  { title := "B", description := none, priority := 1, due_date := "2026-03-16"
    tags := some ["work"] }

/-- State of `wTask1` after a present-null tags update: the tag set is cleared,
nothing else moves. -/
def wTask1Cleared : Task := { wTask1 with tags := [] }

def wdb1Cleared : DB := { wdb1 with tasks := [wTask1Cleared] }

/-- State of `wTask1` after a tags-only update to `["x"]`: tag row 2 is created
and attached, `updated_at` stays at 5. -/
def wTask1TagsX : Task := { wTask1 with tags := [2] }

def wdb1TagsX : DB :=
  { wdb1 with tasks := [wTask1TagsX], tags := [⟨1, "work"⟩, ⟨2, "x"⟩], nextTagId := 3 }

/-- State of `wdb1` after soft-deleting task 1 at clock 10. -/
def wdb1Deleted : DB :=
  { wdb1 with tasks := [{ wTask1 with
      is_deleted := true, deleted_at := some 10, updated_at := 10 }] }

/-! ### Ordering: the sort is a permutation -/

theorem insertByCreatedDesc_perm (t : Task) (l : List Task) :
    List.Perm (insertByCreatedDesc t l) (t :: l) := by
  induction l with
  | nil => exact List.Perm.refl _
  | cons u us ih =>
    by_cases h : t.created_at ≤ u.created_at
    · simp only [insertByCreatedDesc, if_pos h]
      exact (ih.cons u).trans (List.Perm.swap t u us)
    · simp only [insertByCreatedDesc, if_neg h]
      exact List.Perm.refl _

theorem sortByCreatedDesc_perm (ts : List Task) :
    List.Perm (sortByCreatedDesc ts) ts := by
  induction ts with
  | nil => exact List.Perm.refl _
  | cons t ts ih => exact (insertByCreatedDesc_perm t (sortByCreatedDesc ts)).trans (ih.cons t)

theorem sortByCreatedDesc_length (ts : List Task) :
    (sortByCreatedDesc ts).length = ts.length :=
  (sortByCreatedDesc_perm ts).length_eq

theorem mem_sortByCreatedDesc {x : Task} {ts : List Task} :
    x ∈ sortByCreatedDesc ts ↔ x ∈ ts :=
  (sortByCreatedDesc_perm ts).mem_iff

/-! ### The tag join and task-level DISTINCT -/

theorem mem_joinRows {db : DB} {ns : List String} {ts : List Task} {x : Task}
    (h : x ∈ joinRows db ns ts) : x ∈ ts := by
  induction ts with
  | nil => simp [joinRows] at h
  | cons t ts ih =>
    simp only [joinRows, List.mem_append] at h
    rcases h with h | h
    · rcases List.mem_map.mp h with ⟨n, _, rfl⟩
      exact List.mem_cons_self _ _
    · exact List.mem_cons_of_mem _ (ih h)

theorem mem_dedupByIdAux {x : Task} :
    ∀ (l : List Task) (seen : List Nat), x ∈ dedupByIdAux seen l → x ∈ l := by
  intro l
  induction l with
  | nil => intro seen h; simp [dedupByIdAux] at h
  | cons t ts ih =>
    intro seen h
    cases hc : seen.contains t.id with
    | true =>
      simp only [dedupByIdAux, hc, if_true] at h
      exact List.mem_cons_of_mem _ (ih _ h)
    | false =>
      simp only [dedupByIdAux, hc] at h
      rcases List.mem_cons.mp h with h | h
      · exact h ▸ List.mem_cons_self _ _
      · exact List.mem_cons_of_mem _ (ih _ h)

theorem mem_dedupById {x : Task} {l : List Task} (h : x ∈ dedupById l) : x ∈ l :=
  mem_dedupByIdAux l [] h

theorem dedupByIdAux_replicate_of_seen (t : Task) (k : Nat) :
    ∀ (seen : List Nat) (rest : List Task), seen.contains t.id = true →
      dedupByIdAux seen (List.replicate k t ++ rest) = dedupByIdAux seen rest := by
  induction k with
  | zero => intro seen rest _; rfl
  | succ k ih =>
    intro seen rest h
    rw [List.replicate_succ, List.cons_append]
    simp only [dedupByIdAux, h, if_true]
    exact ih seen rest h

theorem dedupByIdAux_replicate_of_new (t : Task) (k : Nat) (seen : List Nat) (rest : List Task)
    (h : t.id ∉ seen) (hk : k ≠ 0) :
    dedupByIdAux seen (List.replicate k t ++ rest)
      = t :: dedupByIdAux (t.id :: seen) rest := by
  cases k with
  | zero => exact absurd rfl hk
  | succ k =>
    have hc : seen.contains t.id = false := by simp [h]
    rw [List.replicate_succ, List.cons_append]
    simp only [dedupByIdAux, hc]
    rw [if_neg (by simp [hc])]
    rw [dedupByIdAux_replicate_of_seen t k _ rest (by simp)]

theorem block_eq_replicate (db : DB) (ns : List String) (t : Task) :
    ((taskTagNames db t).filter (fun n => ns.contains n)).map (fun _ => t)
      = List.replicate ((taskTagNames db t).filter (fun n => ns.contains n)).length t :=
  List.map_const' _ t

theorem tagMatch_false_iff (db : DB) (ns : List String) (t : Task) :
    tagMatch db ns t = false
      ↔ ((taskTagNames db t).filter (fun n => ns.contains n)).length = 0 := by
  rw [List.length_eq_zero, List.filter_eq_nil_iff, tagMatch, List.any_eq_false]

theorem dedupByIdAux_joinRows (db : DB) (ns : List String) :
    ∀ (base : List Task) (seen : List Nat),
      (base.map Task.id).Nodup → (∀ t ∈ base, t.id ∉ seen) →
      dedupByIdAux seen (joinRows db ns base) = base.filter (tagMatch db ns) := by
  intro base
  induction base with
  | nil => intro seen _ _; rfl
  | cons t ts ih =>
    intro seen hnd hseen
    rw [List.map_cons] at hnd
    rcases List.nodup_cons.mp hnd with ⟨hnotin, hnd2⟩
    have hseen2 : ∀ u ∈ ts, u.id ∉ seen := fun u hu => hseen u (List.mem_cons_of_mem _ hu)
    show dedupByIdAux seen
      (((taskTagNames db t).filter (fun n => ns.contains n)).map (fun _ => t)
        ++ joinRows db ns ts) = _
    rw [block_eq_replicate, List.filter_cons]
    cases hm : tagMatch db ns t with
    | false =>
      rw [tagMatch_false_iff] at hm
      rw [hm]
      simp only [List.replicate_zero, List.nil_append, Bool.false_eq_true, if_false]
      exact ih seen hnd2 hseen2
    | true =>
      have hk : ((taskTagNames db t).filter (fun n => ns.contains n)).length ≠ 0 := by
        intro h0
        rw [← tagMatch_false_iff] at h0
        rw [hm] at h0
        exact Bool.true_eq_false.mp h0
      rw [dedupByIdAux_replicate_of_new t _ seen _ (hseen t (List.mem_cons_self _ _)) hk]
      simp only [if_true]
      congr 1
      apply ih (t.id :: seen) hnd2
      intro u hu
      rw [List.mem_cons]
      rintro (h | h)
      · exact hnotin (h ▸ List.mem_map_of_mem Task.id hu)
      · exact hseen2 u hu h

theorem dedupById_joinRows (db : DB) (ns : List String) (base : List Task)
    (hnd : (base.map Task.id).Nodup) :
    dedupById (joinRows db ns base) = base.filter (tagMatch db ns) :=
  dedupByIdAux_joinRows db ns base [] hnd (fun _ _ => List.not_mem_nil _)

theorem tagMatch_true_iff (db : DB) (ns : List String) (t : Task) :
    tagMatch db ns t = true ↔ ∃ n ∈ taskTagNames db t, n ∈ ns := by
  simp [tagMatch, List.any_eq_true]

/-! ### Characterising `matchedTasks` and the returned page -/

theorem base_ids_nodup (db : DB) (completed? : Option Bool) (priority? : Option Nat)
    (h : (db.tasks.map Task.id).Nodup) :
    ((db.tasks.filter (baseFilter completed? priority?)).map Task.id).Nodup :=
  h.sublist ((List.filter_sublist _).map _)

theorem matchedTasks_of_no_tags (db : DB) (completed? : Option Bool) (priority? : Option Nat)
    (tagsParam : Option String) (h : parseTagsParam tagsParam = []) :
    matchedTasks db completed? priority? tagsParam
      = db.tasks.filter (baseFilter completed? priority?) := by
  unfold matchedTasks
  rw [h]
  rfl

theorem matchedTasks_of_tags (db : DB) (completed? : Option Bool) (priority? : Option Nat)
    (tagsParam : Option String) (hnd : (db.tasks.map Task.id).Nodup)
    (hne : parseTagsParam tagsParam ≠ []) :
    matchedTasks db completed? priority? tagsParam
      = List.filter (tagMatch db (parseTagsParam tagsParam))
          (db.tasks.filter (baseFilter completed? priority?)) := by
  unfold matchedTasks
  rw [if_neg (by simpa [List.isEmpty_iff] using hne)]
  exact dedupById_joinRows db _ _ (base_ids_nodup db completed? priority? hnd)

theorem mem_matchedTasks_base {db : DB} {completed? : Option Bool} {priority? : Option Nat}
    {tagsParam : Option String} {t : Task}
    (h : t ∈ matchedTasks db completed? priority? tagsParam) :
    t ∈ db.tasks ∧ baseFilter completed? priority? t = true := by
  unfold matchedTasks at h
  by_cases he : (parseTagsParam tagsParam).isEmpty = true
  · rw [if_pos he] at h
    exact ⟨(List.mem_filter.mp h).1, (List.mem_filter.mp h).2⟩
  · rw [if_neg he] at h
    have hb := mem_joinRows (mem_dedupById h)
    exact ⟨(List.mem_filter.mp hb).1, (List.mem_filter.mp hb).2⟩

theorem mem_listTasks_matched {db : DB} {completed? : Option Bool} {priority? : Option Nat}
    {tagsParam : Option String} {limit offset : Nat} {t : Task}
    (h : t ∈ (list_tasks db completed? priority? tagsParam limit offset).tasks) :
    t ∈ matchedTasks db completed? priority? tagsParam :=
  mem_sortByCreatedDesc.mp (List.drop_subset _ _ (List.take_subset _ _ h))

theorem baseFilter_eq_true_iff (completed? : Option Bool) (priority? : Option Nat) (t : Task) :
    baseFilter completed? priority? t = true
      ↔ t.is_deleted = false
        ∧ (∀ c, completed? = some c → t.completed = c)
        ∧ (∀ pr, priority? = some pr → t.priority = pr) := by
  cases completed? <;> cases priority? <;> simp [baseFilter, and_assoc]

theorem listTasks_page_of_le (db : DB) (completed? : Option Bool) (priority? : Option Nat)
    (tagsParam : Option String) (limit : Nat)
    (hlim : (matchedTasks db completed? priority? tagsParam).length ≤ limit) :
    (list_tasks db completed? priority? tagsParam limit 0).tasks
      = sortByCreatedDesc (matchedTasks db completed? priority? tagsParam) := by
  show ((sortByCreatedDesc _).drop 0).take limit = _
  rw [List.drop_zero]
  exact List.take_of_length_le (by rw [sortByCreatedDesc_length]; exact hlim)

/-- C4: with a tags filter, `list_tasks` (over a full page window) returns
exactly the non-deleted tasks that satisfy the completed and priority
filters and carry at least one requested tag name, each exactly once. -/
theorem listTasks_tag_filter_exact (db : DB) (completed? : Option Bool) (priority? : Option Nat)
    (s : String) (limit : Nat)
    (hnd : (db.tasks.map Task.id).Nodup)
    (hne : parseTagsParam (some s) ≠ [])
    (hlim : (matchedTasks db completed? priority? (some s)).length ≤ limit) :
    (∀ t, t ∈ (list_tasks db completed? priority? (some s) limit 0).tasks
        ↔ t ∈ db.tasks ∧ t.is_deleted = false
          ∧ (∀ c, completed? = some c → t.completed = c)
          ∧ (∀ pr, priority? = some pr → t.priority = pr)
          ∧ ∃ n ∈ taskTagNames db t, n ∈ parseTagsParam (some s))
    ∧ ((list_tasks db completed? priority? (some s) limit 0).tasks.map Task.id).Nodup := by
  have hpage := listTasks_page_of_le db completed? priority? (some s) limit hlim
  have hmeq := matchedTasks_of_tags db completed? priority? (some s) hnd hne
  constructor
  · intro t
    rw [hpage, mem_sortByCreatedDesc, hmeq, List.mem_filter, List.mem_filter,
      baseFilter_eq_true_iff, tagMatch_true_iff]
    tauto
  · rw [hpage]
    have hperm := (sortByCreatedDesc_perm
      (matchedTasks db completed? priority? (some s))).map Task.id
    rw [hperm.nodup_iff, hmeq]
    exact hnd.sublist (((List.filter_sublist _).trans (List.filter_sublist _)).map _)

/-! ### Tag store: get-or-create facts -/

theorem get_or_create_tags_tasks_eq (ns : List String) :
    ∀ db : DB, (get_or_create_tags db ns).1.tasks = db.tasks := by
  induction ns with
  | nil => intro db; rfl
  | cons n ns ih =>
    intro db
    simp only [get_or_create_tags]
    split
    · exact ih db
    · exact ih _

theorem get_or_create_tags_now_eq (ns : List String) :
    ∀ db : DB, (get_or_create_tags db ns).1.now = db.now := by
  induction ns with
  | nil => intro db; rfl
  | cons n ns ih =>
    intro db
    simp only [get_or_create_tags]
    split
    · exact ih db
    · exact ih _

theorem get_or_create_tags_tags_mono (ns : List String) :
    ∀ (db : DB) (tg : Tag), tg ∈ db.tags → tg ∈ (get_or_create_tags db ns).1.tags := by
  induction ns with
  | nil => intro db tg h; exact h
  | cons n ns ih =>
    intro db tg h
    simp only [get_or_create_tags]
    split
    · exact ih db tg h
    · exact ih _ tg (List.mem_append_left _ h)

theorem get_or_create_tags_names_nodup (ns : List String) :
    ∀ db : DB, (db.tags.map Tag.name).Nodup →
      ((get_or_create_tags db ns).1.tags.map Tag.name).Nodup := by
  induction ns with
  | nil => intro db h; exact h
  | cons n ns ih =>
    intro db h
    simp only [get_or_create_tags]
    split
    · exact ih db h
    · rename_i hf
      apply ih
      rw [List.map_append]
      simp only [List.map_cons, List.map_nil]
      rw [List.nodup_append]
      refine ⟨h, List.nodup_singleton n, ?_⟩
      intro x hx hx'
      rcases List.mem_map.mp hx with ⟨tg, htg, rfl⟩
      have := List.find?_eq_none.mp hf tg htg
      rcases List.mem_singleton.mp hx' with h'
      exact this (by rw [h']; exact beq_self_eq_true n)

theorem get_or_create_tags_reuse (ns : List String) :
    ∀ (db : DB) (tg : Tag), (db.tags.map Tag.name).Nodup → tg ∈ db.tags →
      tg.name ∈ ns → tg.id ∈ (get_or_create_tags db ns).2 := by
  induction ns with
  | nil => intro db tg _ _ h; exact absurd h (List.not_mem_nil _)
  | cons n ns ih =>
    intro db tg hnd htg hmem
    simp only [get_or_create_tags]
    cases hf : db.tags.find? (fun u => u.name == n) with
    | some tg' =>
      simp only [hf]
      rcases List.mem_cons.mp hmem with hname | hname
      · have h1p := List.find?_some hf
        have h1 : tg'.name = n := by simpa using h1p
        have h2 : tg' ∈ db.tags := List.mem_of_find?_eq_some hf
        have : tg' = tg :=
          List.inj_on_of_nodup_map hnd h2 htg (by rw [h1, hname])
        exact this ▸ List.mem_cons_self _ _
      · exact List.mem_cons_of_mem _ (ih db tg hnd htg hname)
    | none =>
      simp only [hf]
      rcases List.mem_cons.mp hmem with hname | hname
      · exact absurd (by rw [hname]; exact beq_self_eq_true n)
          (List.find?_eq_none.mp hf tg htg)
      · refine List.mem_cons_of_mem _ (ih _ tg ?_ (List.mem_append_left _ htg) hname)
        rw [List.map_append]
        simp only [List.map_cons, List.map_nil]
        rw [List.nodup_append]
        refine ⟨hnd, List.nodup_singleton _, ?_⟩
        intro x hx hx'
        rcases List.mem_map.mp hx with ⟨u, hu, rfl⟩
        have := List.find?_eq_none.mp hf u hu
        rcases List.mem_singleton.mp hx' with h'
        exact this (by rw [h']; exact beq_self_eq_true n)

/-! ### Inversion of the mutating handlers -/

theorem update_task_of_find (db : DB) (tid : Nat) (p : TaskUpdate) (task0 : Task)
    (hf : db.tasks.find? (fun t => t.id == tid && t.is_deleted == false) = some task0) :
    update_task db tid p = some
      ({ (applyTagsKey db task0 p.tags).1 with
          tasks := (applyTagsKey db task0 p.tags).1.tasks.map
            (fun t => if t.id == task0.id then
              applyScalars task0 p (applyTagsKey db task0 p.tags).2 db.now else t) },
        applyScalars task0 p (applyTagsKey db task0 p.tags).2 db.now) := by
  unfold update_task
  rw [hf]

theorem update_task_of_none (db : DB) (tid : Nat) (p : TaskUpdate)
    (hf : db.tasks.find? (fun t => t.id == tid && t.is_deleted == false) = none) :
    update_task db tid p = none := by
  unfold update_task
  rw [hf]

theorem delete_task_of_find (db : DB) (tid : Nat) (task0 : Task)
    (hf : db.tasks.find? (fun t => t.id == tid && t.is_deleted == false) = some task0) :
    delete_task db tid = some { db with tasks := db.tasks.map (fun t =>
      if t.id == task0.id then
        { t with is_deleted := true, deleted_at := some db.now, updated_at := db.now }
      else t) } := by
  unfold delete_task
  rw [hf]

theorem delete_task_of_none (db : DB) (tid : Nat)
    (hf : db.tasks.find? (fun t => t.id == tid && t.is_deleted == false) = none) :
    delete_task db tid = none := by
  unfold delete_task
  rw [hf]

theorem get_task_eq_find (db : DB) (tid : Nat) :
    get_task db tid = db.tasks.find? (fun t => t.id == tid && t.is_deleted == false) := rfl

theorem found_task_facts {db : DB} {tid : Nat} {task0 : Task}
    (hf : db.tasks.find? (fun t => t.id == tid && t.is_deleted == false) = some task0) :
    task0 ∈ db.tasks ∧ task0.id = tid ∧ task0.is_deleted = false := by
  have hp := List.find?_some hf
  rcases Bool.and_eq_true_iff.mp hp with ⟨h1, h2⟩
  exact ⟨List.mem_of_find?_eq_some hf, beq_iff_eq.mp h1, beq_iff_eq.mp h2⟩

theorem mem_listTasks_not_deleted {db : DB} {completed? : Option Bool} {priority? : Option Nat}
    {tagsParam : Option String} {limit offset : Nat} {t : Task}
    (h : t ∈ (list_tasks db completed? priority? tagsParam limit offset).tasks) :
    t ∈ db.tasks ∧ t.is_deleted = false :=
  have hm := mem_matchedTasks_base (mem_listTasks_matched h)
  ⟨hm.1, ((baseFilter_eq_true_iff _ _ _).mp hm.2).1⟩

/-! ### Claim theorems -/

/-- C3: a soft-deleted task is never observable through the read
operations: whatever the filters and pagination, `list_tasks` only
returns live tasks and never one whose id is soft-deleted, and
`get_task` on a soft-deleted id is NotFound.  The reads are pure
functions of the store, so the underlying record stays in `db.tasks`
untouched. -/
theorem soft_deleted_never_observable (db : DB) (tid : Nat)
    (hdel : ∀ t ∈ db.tasks, t.id = tid → t.is_deleted = true) :
    (∀ completed? priority? tagsParam limit offset t,
        t ∈ (list_tasks db completed? priority? tagsParam limit offset).tasks →
          t.is_deleted = false ∧ t.id ≠ tid)
    ∧ get_task db tid = none := by
  constructor
  · intro completed? priority? tagsParam limit offset t ht
    obtain ⟨hmem, hlive⟩ := mem_listTasks_not_deleted ht
    refine ⟨hlive, fun hid => ?_⟩
    rw [hdel t hmem hid] at hlive
    exact Bool.true_eq_false.mp hlive
  · rw [get_task_eq_find]
    apply List.find?_eq_none.mpr
    intro x hx hp
    rcases Bool.and_eq_true_iff.mp hp with ⟨h1, h2⟩
    have := hdel x hx (beq_iff_eq.mp h1)
    rw [this] at h2
    exact Bool.true_eq_false.mp (beq_iff_eq.mp h2)

/-- Witness for C3 at a concrete store: task 3 of `wdb` is soft-deleted. -/
theorem soft_deleted_never_observable_witness :
    (∀ t ∈ wdb.tasks, t.id = 3 → t.is_deleted = true) ∧ get_task wdb 3 = none :=
  ⟨by decide, (soft_deleted_never_observable wdb 3 (by decide)).2⟩

/-- Witness for C4 at a concrete store: both live tasks of `wdb` match
the filter `"work,urgent"`; task 1 matches on two names yet the page
carries no duplicate ids. -/
theorem listTasks_tag_filter_exact_witness :
    ((wdb.tasks.map Task.id).Nodup ∧ parseTagsParam (some ("work,urgent")) ≠ []
      ∧ (matchedTasks wdb none none (some ("work,urgent"))).length ≤ 20)
    ∧ ((list_tasks wdb none none (some ("work,urgent")) 20 0).tasks.map Task.id).Nodup :=
  ⟨⟨by decide, by decide, by decide⟩,
    (listTasks_tag_filter_exact wdb none none ("work,urgent") 20
      (by decide) (by decide) (by decide)).2⟩

/-- C5: the reported total is the number of tasks matching the filters
before pagination, invariant under every limit/offset choice, and an
offset at or beyond the total yields an empty page with the total
unchanged. -/
theorem listTasks_total_invariant (db : DB) (completed? : Option Bool) (priority? : Option Nat)
    (tagsParam : Option String) (limit offset limit2 offset2 : Nat) :
    (list_tasks db completed? priority? tagsParam limit offset).total
        = (matchedTasks db completed? priority? tagsParam).length
    ∧ (list_tasks db completed? priority? tagsParam limit offset).total
        = (list_tasks db completed? priority? tagsParam limit2 offset2).total
    ∧ ((list_tasks db completed? priority? tagsParam limit offset).total ≤ offset →
        (list_tasks db completed? priority? tagsParam limit offset).tasks = []) := by
  refine ⟨rfl, rfl, fun h => ?_⟩
  show ((sortByCreatedDesc _).drop offset).take limit = []
  rw [List.drop_eq_nil_of_le, List.take_nil]
  rw [sortByCreatedDesc_length]
  exact h

/-- Witness for C5: `wdb` has two live tasks; offset 9 is beyond the
total, so the page is empty. -/
theorem listTasks_total_invariant_witness :
    (list_tasks wdb none none none 20 9).total ≤ 9
    ∧ (list_tasks wdb none none none 20 9).tasks = [] :=
  ⟨by decide, (listTasks_total_invariant wdb none none none 20 9 2 0).2.2 (by decide)⟩

/-- C10: a tags query string that parses to no names (empty, or only
whitespace and commas) drops the tag filter entirely: the response is
identical to a request without a tags parameter. -/
theorem listTasks_blank_tags_ignored (db : DB) (completed? : Option Bool)
    (priority? : Option Nat) (s : String) (limit offset : Nat)
    (h : parseTagsParam (some s) = []) :
    list_tasks db completed? priority? (some s) limit offset
      = list_tasks db completed? priority? none limit offset := by
  have h1 := matchedTasks_of_no_tags db completed? priority? (some s) h
  have h2 := matchedTasks_of_no_tags db completed? priority? none rfl
  unfold list_tasks
  rw [h1, h2]

/-- Witness for C10 on the string `" , "`. -/
theorem listTasks_blank_tags_ignored_witness :
    parseTagsParam (some (" , ")) = []
    ∧ list_tasks wdb none none (some (" , ")) 20 0 = list_tasks wdb none none none 20 0 :=
  ⟨by decide, listTasks_blank_tags_ignored wdb none none (" , ") 20 0 (by decide)⟩

/-- C6: resolving a normalized tag name that already has a Tag row
returns that row instead of creating another: a task created with an
already-used name attaches the existing tag id, keeps the row, and the
global uniqueness of tag names is preserved, so at most one Tag row
ever exists per name. -/
theorem create_task_reuses_tag (db : DB) (p : TaskCreate) (tg : Tag) (ns : List String)
    (hnd : (db.tags.map Tag.name).Nodup)
    (htg : tg ∈ db.tags)
    (hp : p.tags = some ns)
    (hmem : tg.name ∈ ns) :
    tg.id ∈ (create_task db p).2.tags
    ∧ tg ∈ (create_task db p).1.tags
    ∧ (((create_task db p).1.tags).map Tag.name).Nodup := by
  have hne : ns.isEmpty = false := by
    cases ns with
    | nil => exact absurd hmem (List.not_mem_nil _)
    | cons a l => rfl
  simp only [create_task, hp, hne, Bool.false_eq_true, if_false]
  exact ⟨get_or_create_tags_reuse ns db tg hnd htg hmem,
    get_or_create_tags_tags_mono ns db tg htg,
    get_or_create_tags_names_nodup ns db hnd⟩

/-- Witness for C6: creating a second task with tag name "work" on
`wdb1` reattaches the existing tag id 1. -/
theorem create_task_reuses_tag_witness :
    ((wdb1.tags.map Tag.name).Nodup ∧ (⟨1, "work"⟩ : Tag) ∈ wdb1.tags
      ∧ wCreate.tags = some ["work"] ∧ "work" ∈ ["work"])
    ∧ 1 ∈ (create_task wdb1 wCreate).2.tags :=
  ⟨⟨by decide, by decide, by decide, by decide⟩,
    (create_task_reuses_tag wdb1 wCreate ⟨1, "work"⟩ ["work"]
      (by decide) (by decide) rfl (by decide)).1⟩

theorem applyTagsKey_tasks_eq (db : DB) (task : Task) (tf : Option (Option (List String))) :
    (applyTagsKey db task tf).1.tasks = db.tasks := by
  cases tf with
  | none => rfl
  | some o =>
    cases o with
    | none => rfl
    | some names => exact get_or_create_tags_tasks_eq names db

theorem applyTagsKey_now_eq (db : DB) (task : Task) (tf : Option (Option (List String))) :
    (applyTagsKey db task tf).1.now = db.now := by
  cases tf with
  | none => rfl
  | some o =>
    cases o with
    | none => rfl
    | some names => exact get_or_create_tags_now_eq names db

theorem create_task_fst_tasks (db : DB) (p : TaskCreate) :
    (create_task db p).1.tasks = db.tasks ++ [(create_task db p).2] := by
  unfold create_task
  cases hp : p.tags with
  | none => rfl
  | some ns =>
    by_cases hne : ns.isEmpty
    · simp only [hne, if_true]
    · simp only [Bool.not_eq_true] at hne
      simp only [hne, Bool.false_eq_true, if_false]
      rw [get_or_create_tags_tasks_eq]

/-- C7: the equivalence `is_deleted = false ↔ deleted_at = null` holds
in every reachable store: it is established by create (both fields at
their live defaults) and preserved by every update (neither field is
assignable) and by soft delete (both fields stamped together). -/
theorem flags_invariant_preserved (db : DB)
    (h : ∀ t ∈ db.tasks, (t.is_deleted = false ↔ t.deleted_at = none)) :
    (∀ p, ∀ t ∈ (create_task db p).1.tasks, (t.is_deleted = false ↔ t.deleted_at = none))
    ∧ (∀ tid p db' t1, update_task db tid p = some (db', t1) →
        ∀ t ∈ db'.tasks, (t.is_deleted = false ↔ t.deleted_at = none))
    ∧ (∀ tid db', delete_task db tid = some db' →
        ∀ t ∈ db'.tasks, (t.is_deleted = false ↔ t.deleted_at = none)) := by
  refine ⟨?_, ?_, ?_⟩
  · intro p t ht
    rw [create_task_fst_tasks] at ht
    rcases List.mem_append.mp ht with ht | ht
    · exact h t ht
    · rcases List.mem_singleton.mp ht with rfl
      exact ⟨fun _ => rfl, fun _ => rfl⟩
  · intro tid p db' t1 hu t ht
    cases hf : db.tasks.find? (fun u => u.id == tid && u.is_deleted == false) with
    | none => rw [update_task_of_none db tid p hf] at hu; cases hu
    | some task0 =>
      rw [update_task_of_find db tid p task0 hf] at hu
      simp only [Option.some.injEq, Prod.mk.injEq] at hu
      obtain ⟨rfl, rfl⟩ := hu
      have hmem := (found_task_facts hf).1
      simp only [applyTagsKey_tasks_eq] at ht
      rcases List.mem_map.mp ht with ⟨u, hu', rfl⟩
      by_cases hid : (u.id == task0.id) = true
      · simp only [hid, if_true]
        exact h task0 hmem
      · simp only [Bool.not_eq_true] at hid
        simp only [hid, Bool.false_eq_true, if_false]
        exact h u hu'
  · intro tid db' hd t ht
    cases hf : db.tasks.find? (fun u => u.id == tid && u.is_deleted == false) with
    | none => rw [delete_task_of_none db tid hf] at hd; cases hd
    | some task0 =>
      rw [delete_task_of_find db tid task0 hf] at hd
      obtain rfl := Option.some.inj hd
      rcases List.mem_map.mp ht with ⟨u, hu', rfl⟩
      by_cases hid : (u.id == task0.id) = true
      · simp only [hid, if_true]
        exact ⟨fun hc => absurd hc (by simp), fun hc => absurd hc (by simp)⟩
      · simp only [Bool.not_eq_true] at hid
        simp only [hid, Bool.false_eq_true, if_false]
        exact h u hu'

/-- Witness for C7: `wdb` satisfies the invariant and keeps it across a
concrete create. -/
theorem flags_invariant_preserved_witness :
    (∀ t ∈ wdb.tasks, (t.is_deleted = false ↔ t.deleted_at = none))
    ∧ (∀ t ∈ (create_task wdb wCreate).1.tasks,
        (t.is_deleted = false ↔ t.deleted_at = none)) :=
  ⟨by decide, (flags_invariant_preserved wdb (by decide)).1 wCreate⟩

/-- C8: a partial update naming only `title` succeeds on a live task
and leaves priority, due_date, description, completed, the tag set and
the tag store exactly as they were. -/
theorem update_title_only_frame (db : DB) (tid : Nat) (v : String) (t0 : Task)
    (hget : get_task db tid = some t0) :
    ∃ db' t1, update_task db tid
        { title := some v, description := none, priority := none,
          due_date := none, completed := none, tags := none } = some (db', t1)
      ∧ t1.title = v
      ∧ t1.priority = t0.priority ∧ t1.due_date = t0.due_date
      ∧ t1.description = t0.description ∧ t1.completed = t0.completed
      ∧ t1.tags = t0.tags ∧ db'.tags = db.tags := by
  rw [get_task_eq_find] at hget
  exact ⟨_, _, update_task_of_find db tid _ t0 hget, rfl, rfl, rfl, rfl, rfl, rfl, rfl⟩

/-- Witness for C8 on `wdb1`. -/
theorem update_title_only_frame_witness :
    get_task wdb1 1 = some wTask1
    ∧ (∃ db' t1, update_task wdb1 1
        { title := some ("renamed"), description := none, priority := none,
          due_date := none, completed := none, tags := none } = some (db', t1)
      ∧ t1.title = "renamed"
      ∧ t1.priority = wTask1.priority ∧ t1.due_date = wTask1.due_date
      ∧ t1.description = wTask1.description ∧ t1.completed = wTask1.completed
      ∧ t1.tags = wTask1.tags ∧ db'.tags = wdb1.tags) :=
  ⟨by decide, update_title_only_frame wdb1 1 ("renamed") wTask1 (by decide)⟩

/-- C9: soft delete succeeds exactly when the id refers to an existing
non-deleted task; on success it stamps `is_deleted` and `deleted_at`
(retaining the record and every other task), and a second delete of the
same id fails with NotFound, as does a delete of a nonexistent id. -/
theorem delete_task_spec (db : DB) (tid : Nat) :
    ((∃ t ∈ db.tasks, t.id = tid ∧ t.is_deleted = false) ↔ (delete_task db tid).isSome = true)
    ∧ (∀ db', delete_task db tid = some db' →
        (∃ t' ∈ db'.tasks, t'.id = tid ∧ t'.is_deleted = true ∧ t'.deleted_at = some db.now)
        ∧ (∀ u ∈ db.tasks, u.id ≠ tid → u ∈ db'.tasks)
        ∧ db'.tags = db.tags
        ∧ delete_task db' tid = none) := by
  constructor
  · constructor
    · intro hex
      have hsome : (db.tasks.find? (fun t => t.id == tid && t.is_deleted == false)).isSome
          = true := by
        apply List.find?_isSome.mpr
        obtain ⟨t, ht, h1, h2⟩ := hex
        exact ⟨t, ht, by simp [h1, h2]⟩
      rcases Option.isSome_iff_exists.mp hsome with ⟨task0, hf⟩
      rw [delete_task_of_find db tid task0 hf]
      rfl
    · intro hsome
      cases hf : db.tasks.find? (fun t => t.id == tid && t.is_deleted == false) with
      | none =>
        rw [delete_task_of_none db tid hf] at hsome
        cases hsome
      | some task0 =>
        obtain ⟨hmem, hid, hlive⟩ := found_task_facts hf
        exact ⟨task0, hmem, hid, hlive⟩
  · intro db' hd
    cases hf : db.tasks.find? (fun t => t.id == tid && t.is_deleted == false) with
    | none => rw [delete_task_of_none db tid hf] at hd; cases hd
    | some task0 =>
      rw [delete_task_of_find db tid task0 hf] at hd
      obtain rfl := Option.some.inj hd
      obtain ⟨hmem, hid, _⟩ := found_task_facts hf
      refine ⟨⟨_, List.mem_map_of_mem _ hmem, ?_⟩, ?_, rfl, ?_⟩
      · simp [hid]
      · intro u hu hne
        have hb : (u.id == task0.id) = false := by
          rw [hid]
          exact beq_eq_false_iff_ne.mpr hne
        have := List.mem_map_of_mem (fun t => if t.id == task0.id then
          { t with is_deleted := true, deleted_at := some db.now, updated_at := db.now }
          else t) hu
        simpa [hb] using this
      · apply delete_task_of_none
        apply List.find?_eq_none.mpr
        intro x hx
        rcases List.mem_map.mp hx with ⟨u, _, rfl⟩
        by_cases hb : (u.id == task0.id) = true
        · simp [hb]
        · simp only [Bool.not_eq_true] at hb
          simp only [hb, Bool.false_eq_true, if_false]
          intro hp
          rcases Bool.and_eq_true_iff.mp hp with ⟨h1, _⟩
          rw [hid] at hb
          rw [h1] at hb
          simp at hb

/-- Witness for C9 on `wdb1`: the first delete succeeds, the second
fails. -/
theorem delete_task_spec_witness :
    delete_task wdb1 1 = some wdb1Deleted ∧ delete_task wdb1Deleted 1 = none :=
  ⟨by decide, ((delete_task_spec wdb1 1).2 wdb1Deleted (by decide)).2.2.2⟩

/-- C1 counterexample: on `wdb1`, an update whose `tags` key is present
and explicitly null does not leave the tag set unchanged — the live
task holds tag 1 before the update and no tags after it. -/
theorem update_null_tags_changes_tags :
    (get_task wdb1 1).map Task.tags = some [1]
    ∧ (update_task wdb1 1 wPayloadNullTags).map (fun r => r.2.tags) = some []
    ∧ (update_task wdb1 1 wPayloadNullTags).map (fun r => r.2.tags)
        ≠ (get_task wdb1 1).map Task.tags := by
  exact ⟨by decide, by decide, by decide⟩

/-- C1 amended: when the `tags` key is present and explicitly null the
handler clears the tag set (the same effect as an empty list, which the
upstream validator collapses to null); only an absent `tags` key leaves
the tag set untouched. -/
theorem update_tags_null_clears (db : DB) (tid : Nat) (p : TaskUpdate) (db' : DB) (t1 : Task)
    (h : update_task db tid p = some (db', t1)) :
    (p.tags = some none → t1.tags = [])
    ∧ (p.tags = none → ∃ t0, get_task db tid = some t0 ∧ t1.tags = t0.tags)
    ∧ validate_tags (some []) = none := by
  cases hf : db.tasks.find? (fun t => t.id == tid && t.is_deleted == false) with
  | none => rw [update_task_of_none db tid p hf] at h; cases h
  | some task0 =>
    rw [update_task_of_find db tid p task0 hf] at h
    simp only [Option.some.injEq, Prod.mk.injEq] at h
    obtain ⟨rfl, rfl⟩ := h
    refine ⟨fun hp => ?_, fun hp => ?_, rfl⟩
    · show (applyTagsKey db task0 p.tags).2 = []
      rw [hp]
      rfl
    · rw [get_task_eq_find]
      refine ⟨task0, hf, ?_⟩
      show (applyTagsKey db task0 p.tags).2 = task0.tags
      rw [hp]
      rfl

/-- Witness for the amended C1 on `wdb1`. -/
theorem update_tags_null_clears_witness :
    update_task wdb1 1 wPayloadNullTags = some (wdb1Cleared, wTask1Cleared)
    ∧ wTask1Cleared.tags = [] :=
  ⟨by decide,
    (update_tags_null_clears wdb1 1 wPayloadNullTags wdb1Cleared wTask1Cleared (by decide)).1
      rfl⟩

/-- C2 counterexample: on `wdb1` (clock 10), a successful update that
only replaces the tag set leaves `updated_at` at 5 — it is neither set
to the current time nor advanced, because only the `task_tags`
association changes and no UPDATE hits the `tasks` row. -/
theorem update_tags_only_keeps_updated_at :
    (update_task wdb1 1 wPayloadTagsOnly).isSome = true
    ∧ (update_task wdb1 1 wPayloadTagsOnly).map (fun r => r.2.updated_at) = some 5
    ∧ wdb1.now = 10
    ∧ (get_task wdb1 1).map Task.updated_at = some 5 := by
  exact ⟨by decide, by decide, by decide, by decide⟩

/-- C2 amended: a successful update stamps `updated_at` to the current
time exactly when some provided scalar column (title, description,
priority, due_date, completed) differs from its stored value — and then
it strictly advances whenever the clock is ahead of the old stamp; a
payload naming none of the scalar columns (for example a tags-only
payload) leaves `updated_at` unchanged. -/
theorem update_updated_at_spec (db : DB) (tid : Nat) (p : TaskUpdate) (db' : DB)
    (t1 t0 : Task)
    (h : update_task db tid p = some (db', t1))
    (hget : get_task db tid = some t0) :
    (scalarChanges t0 p = true → t1.updated_at = db.now)
    ∧ (scalarChanges t0 p = false → t1.updated_at = t0.updated_at)
    ∧ (scalarChanges t0 p = true → t0.updated_at < db.now → t0.updated_at < t1.updated_at)
    ∧ (p.title = none → p.description = none → p.priority = none → p.due_date = none →
        p.completed = none → t1.updated_at = t0.updated_at) := by
  rw [get_task_eq_find] at hget
  rw [update_task_of_find db tid p t0 hget] at h
  simp only [Option.some.injEq, Prod.mk.injEq] at h
  obtain ⟨rfl, rfl⟩ := h
  have hup : (applyScalars t0 p (applyTagsKey db t0 p.tags).2 db.now).updated_at
      = if scalarChanges t0 p then db.now else t0.updated_at := rfl
  refine ⟨fun hc => ?_, fun hc => ?_, fun hc hlt => ?_, fun h1 h2 h3 h4 h5 => ?_⟩
  · rw [hup, hc]
    rfl
  · rw [hup, hc]
    rfl
  · rw [hup, hc]
    simpa using hlt
  · have hc : scalarChanges t0 p = false := by
      simp [scalarChanges, h1, h2, h3, h4, h5]
    rw [hup, hc]
    rfl

/-- Witness for the amended C2: the tags-only update on `wdb1` keeps
`updated_at` at its old value. -/
theorem update_updated_at_spec_witness :
    (update_task wdb1 1 wPayloadTagsOnly = some (wdb1TagsX, wTask1TagsX)
      ∧ get_task wdb1 1 = some wTask1
      ∧ scalarChanges wTask1 wPayloadTagsOnly = false)
    ∧ wTask1TagsX.updated_at = wTask1.updated_at :=
  ⟨⟨by decide, by decide, by decide⟩,
    (update_updated_at_spec wdb1 1 wPayloadTagsOnly wdb1TagsX wTask1TagsX wTask1
      (by decide) (by decide)).2.1 (by decide)⟩

end TaskAPI
